import Mathlib

/-!
Shallow embedding of `scripts/dependency-resolver.py` (potions-shelf).

Strings from the Python side are modelled as `List Char`.  Python's `int()`
applied to a version component is modelled as a parser accepting a non-empty
string of decimal digits (`pyInt`); fallible Python code (raising
`ValueError`) is modelled with `Option`.
-/

namespace PotionsShelf

abbrev Str := List Char

abbrev V := Int × Int × Int

/-- membership test on a list of strings, models Python `in` on sets/lists -/
def pyMem (x : Str) : List Str → Bool
  | [] => false
  | y :: ys => if x = y then true else pyMem x ys

/-- true when the character starts pre-release/build metadata -/
def isMetaStart (c : Char) : Bool := c = '-' || c = '+'

/-- whether `.*$` matches the whole of `t` (no `re.M`, no `re.S`): the
greedy `.*` cannot cross a newline and `$` holds only at the end of the
string or just before a single terminal newline, so the match succeeds
exactly when `t` is newline-free or all of `t` before one final newline is -/
def dotStarEndMatches (t : Str) : Bool :=
  if t.all (fun c => c != '\n') then true
  else
    match t.getLast? with
    | some c => if c = '\n' then t.dropLast.all (fun ch => ch != '\n') else false
    | none => false

/-- models `re.sub(r'[-+].*$', '', version)`: the scan removes the suffix at
the first `-` or `+` from which `.*$` reaches the end of the string — a
suffix containing a non-terminal newline is NOT stripped (the anchor is
unreachable), and a single terminal newline survives the substitution
(`$` is zero-width before it); after a successful match only `""` or
`"\n"` remains unscanned, where no further match can start -/
def stripMeta (v : Str) : Str :=
  match v with
  | [] => []
  | c :: rest =>
    if isMetaStart c && dotStarEndMatches rest then
      if rest.all (fun ch => ch != '\n') then [] else ['\n']
    else c :: stripMeta rest

/-- models Python `str.split('.')` -/
def splitDots : Str → List Str
  | [] => [[]]
  | c :: cs =>
    if c = '.' then [] :: splitDots cs
    else
      match splitDots cs with
      | [] => [[c]]
      | p :: ps => (c :: p) :: ps

/-- the whitespace characters `int()` strips around its argument
(`Py_UNICODE_ISSPACE`: ASCII 9-13, 28-31, space, NEL, and the Unicode
space separators) -/
def isPySpace (c : Char) : Bool :=
  decide (c.toNat ∈ [9, 10, 11, 12, 13, 28, 29, 30, 31, 32, 133, 160, 5760,
    8192, 8193, 8194, 8195, 8196, 8197, 8198, 8199, 8200, 8201, 8202,
    8232, 8233, 8239, 8287, 12288])

/-- strips `int()`-whitespace from both ends -/
def pyStrip (s : Str) : Str :=
  ((s.dropWhile isPySpace).reverse.dropWhile isPySpace).reverse

/-- continues a digit run already begun: a single `_` is allowed only
between two digits (`1_0` parses, `1_`, `_1` and `1__0` do not) -/
def digitsCore : Nat → Str → Option Nat
  | acc, [] => some acc
  | acc, '_' :: c :: rest =>
    if c.isDigit then digitsCore (acc * 10 + (c.toNat - 48)) rest else none
  | _, ['_'] => none
  | acc, c :: rest =>
    if c.isDigit then digitsCore (acc * 10 + (c.toNat - 48)) rest else none

/-- a non-empty digit run with optional underscore grouping -/
def digitsU : Str → Option Nat
  | [] => none
  | c :: rest => if c.isDigit then digitsCore (c.toNat - 48) rest else none

/-- models Python `int(s)` on a version component: optional surrounding
whitespace, an optional single sign directly followed by the digits, and
underscore digit grouping, as `int()` accepts (restricted to ASCII digits;
non-ASCII decimal digits are outside the model's scope).  `none` models the
raised `ValueError`. -/
def pyInt (s : Str) : Option Int :=
  match pyStrip s with
  | '-' :: ds => (digitsU ds).map (fun n => -(n : Int))
  | '+' :: ds => (digitsU ds).map (fun n => (n : Int))
  | ds => (digitsU ds).map (fun n => (n : Int))

/-- models `int(parts[i]) if len(parts) > i else 0` -/
def component (parts : List Str) (i : Nat) : Option Int :=
  match parts.get? i with
  | some p => pyInt p
  | none => some 0

/-- models `VersionConstraint._parse_version` -/
def parse_version (version : Str) : Option V :=
  let parts := splitDots (stripMeta version)
  match component parts 0, component parts 1, component parts 2 with
  | some a, some b, some c => some (a, b, c)
  | _, _, _ => none

/-- strict lexicographic order on version triples, the order Python uses to
compare `(major, minor, patch)` tuples -/
def lexLt (a b : V) : Prop :=
  a.1 < b.1 ∨ (a.1 = b.1 ∧ (a.2.1 < b.2.1 ∨ (a.2.1 = b.2.1 ∧ a.2.2 < b.2.2)))

instance (a b : V) : Decidable (lexLt a b) := by unfold lexLt; infer_instance

def lexLe (a b : V) : Prop := lexLt a b ∨ a = b

/-- models `VersionConstraint._compare_versions` -/
def compare_versions (v1 v2 : V) : Int :=
  if lexLt v1 v2 then -1 else if lexLt v2 v1 then 1 else 0

/-- the seven operator alternatives in the order the regex
`^(>=|<=|>|<|~>|=|\^)(.+)$` tries them -/
def operators : List Str :=
  [">=".data, "<=".data, ">".data, "<".data, "~>".data, "=".data, "^".data]

/-- returns the rest of `s` after the leading occurrence of `op`, if any -/
def opSplit? : Str → Str → Option Str
  | [], s => some s
  | _ :: _, [] => none
  | o :: os, c :: cs => if c = o then opSplit? os cs else none

/-- tries operator alternatives left to right; an alternative whose
remainder is empty is rejected (the regex `(.+)` backtracks to the next
alternative), as for input `>=` where `>` with remainder `=` matches -/
def matchOp : List Str → Str → Option (Str × Str)
  | [], _ => none
  | op :: ops, s =>
    match opSplit? op s with
    | some rest => if rest = [] then matchOp ops s else some (op, rest)
    | none => matchOp ops s

/-- models `VersionConstraint._parse` (the regex match); `none` models the
raised `ValueError` -/
def constraint_parse (constraint : Str) : Option (Str × Str) :=
  matchOp operators constraint

structure VersionConstraint where
  operator : Str
  version : Str

/-- the body of `VersionConstraint.satisfies`, with the constraint's
operator and version string passed separately; both version strings are
parsed before the operator dispatch, exactly as in the source, so a parse
failure (`ValueError`, modelled `none`) occurs even for the
string-comparing `=` -/
def satisfiesAux (operator version candidate : Str) : Option Bool :=
  match parse_version version, parse_version candidate with
  | some v1, some v2 =>
    some (
      if operator = "=".data then decide (version = candidate)
      else if operator = ">=".data then decide (compare_versions v2 v1 ≥ 0)
      else if operator = "<=".data then decide (compare_versions v2 v1 ≤ 0)
      else if operator = ">".data then decide (compare_versions v2 v1 > 0)
      else if operator = "<".data then decide (compare_versions v2 v1 < 0)
      else if operator = "~>".data then
        decide (compare_versions v2 v1 ≥ 0) &&
        decide (compare_versions v2 (v1.1, v1.2.1 + 1, 0) < 0)
      else if operator = "^".data then
        decide (compare_versions v2 v1 ≥ 0) &&
        decide (compare_versions v2 (v1.1 + 1, 0, 0) < 0)
      else false)
  | _, _ => none

/-- models `VersionConstraint.satisfies` -/
def satisfies (c : VersionConstraint) (version : Str) : Option Bool :=
  satisfiesAux c.operator c.version version

/-- constructing a `VersionConstraint` from a raw string and asking whether
`version` satisfies it; `none` models a `ValueError` from either step -/
def Satisfies (constraint version : Str) : Option Bool :=
  match constraint_parse constraint with
  | some (op, v) => satisfies ⟨op, v⟩ version
  | none => none

/-! ## Registry, dependency graph, cycle detection, validation -/

/-- a dependency declaration inside a manifest: `dep.get('name')` /
`dep.get('version')` yield `None` when the key is absent, modelled by
`Option` -/
structure Dependency where
  name : Option Str
  version : Option Str
  deriving DecidableEq

/-- a plugin manifest; only the fields the resolver reads are modelled -/
structure Manifest where
  name : Option Str
  version : Option Str
  dependencies : List Dependency
  deriving DecidableEq

/-- `self.plugins`: insertion-ordered mapping from plugin name to manifest -/
abbrev Registry := List (Str × Manifest)

/-- dictionary lookup on the registry -/
def lookupReg (reg : Registry) (n : Str) : Option Manifest :=
  match reg with
  | [] => none
  | (k, m) :: rest => if k = n then some m else lookupReg rest n

/-- Python truthiness of an optional string (`if name:`): false for absent
and for the empty string -/
def truthy : Option Str → Bool
  | none => false
  | some s => !(s.isEmpty)

/-- adjacency structure: insertion-ordered list of (node, neighbor list),
modelling `defaultdict(set)` with set semantics on each neighbor list -/
abbrev Graph := List (Str × List Str)

/-- `graph[a].add(b)` -/
def addEdge (g : Graph) (a b : Str) : Graph :=
  match g with
  | [] => [(a, [b])]
  | (k, l) :: rest =>
    if k = a then (k, if pyMem b l then l else l ++ [b]) :: rest
    else (k, l) :: addEdge rest a b

/-- `graph.get(a, set())` -/
def adjOf (g : Graph) (a : Str) : List Str :=
  match g with
  | [] => []
  | (k, l) :: rest => if k = a then l else adjOf rest a

/-- inner loop of `build_dependency_graph` over one manifest's dependency
declarations: an edge is added exactly for declarations with a truthy name -/
def addDeps (name : Str) (deps : List Dependency) (gs : Graph × Graph) : Graph × Graph :=
  deps.foldl
    (fun gs dep =>
      if truthy dep.name then
        let dn := dep.name.getD []
        (addEdge gs.1 name dn, addEdge gs.2 dn name)
      else gs)
    gs

/-- models `DependencyResolver.build_dependency_graph`: returns the forward
graph and the reverse graph -/
def build_dependency_graph (reg : Registry) : Graph × Graph :=
  reg.foldl (fun gs p => addDeps p.1 p.2.dependencies gs) ([], [])

/-- the mutable state of the recursive `dfs` in
`detect_circular_dependencies` -/
structure DfsState where
  visited : List Str
  recStack : List Str
  path : List Str
  cycles : List (List Str)

/-- models `path.index(neighbor)` (only called when the element occurs) -/
def pathIndex (x : Str) : List Str → Nat
  | [] => 0
  | y :: ys => if x = y then 0 else pathIndex x ys + 1

/-- models `rec_stack.remove(node)` (the node occurs exactly once) -/
def removeFirst (x : Str) : List Str → List Str
  | [] => []
  | y :: ys => if y = x then ys else y :: removeFirst x ys

/-- models `path.pop()` -/
def popLast : List Str → List Str
  | [] => []
  | [_] => []
  | y :: ys => y :: popLast ys

/-- models the recursive `dfs`; the fuel argument only bounds the recursion
depth, which in the source is bounded by the number of distinct nodes since
`dfs` is only entered on unvisited nodes -/
def dfsVisit (g : Graph) : Nat → Str → DfsState → DfsState
  | 0, _, s => s
  | fuel + 1, node, s =>
    let s1 : DfsState :=
      { visited := s.visited ++ [node], recStack := s.recStack ++ [node],
        path := s.path ++ [node], cycles := s.cycles }
    let s2 := (adjOf g node).foldl
      (fun t neighbor =>
        if pyMem neighbor t.visited then
          if pyMem neighbor t.recStack then
            { t with cycles := t.cycles ++ [t.path.drop (pathIndex neighbor t.path) ++ [neighbor]] }
          else t
        else dfsVisit g fuel neighbor t)
      s1
    { s2 with recStack := removeFirst node s2.recStack, path := popLast s2.path }

/-- the root loop of `detect_circular_dependencies` over the registry keys -/
def findCycles (g : Graph) (fuel : Nat) (roots : List Str) : List (List Str) :=
  (roots.foldl
    (fun s node => if pyMem node s.visited then s else dfsVisit g fuel node s)
    ⟨[], [], [], []⟩).cycles

/-- total number of adjacency entries and neighbors, an upper bound on the
number of distinct nodes the traversal can reach -/
def graphSize (g : Graph) : Nat := g.foldl (fun n p => n + 1 + p.2.length) 0

/-- models `DependencyResolver.detect_circular_dependencies` -/
def detect_circular_dependencies (reg : Registry) : List (List Str) :=
  let g := (build_dependency_graph reg).1
  findCycles g (reg.length + graphSize g + 1) (reg.map (fun p => p.1))

/-- error message constructors, matching the f-strings of the source -/
def missingNameMsg : Str := "Invalid dependency: missing name".data

def notFoundMsg (depName : Str) : Str :=
  "Dependency '".data ++ depName ++ "' not found in registry".data

def unsatisfiedMsg (depName pluginVersion depVersion : Str) : Str :=
  "Dependency '".data ++ depName ++ "' version '".data ++ pluginVersion ++
    "' does not satisfy constraint '".data ++ depVersion ++ "'".data

/-- the message of the `ValueError` raised by `_parse`, interpolated into
the invalid-constraint error -/
def invalidConstraintMsg (depName depVersion : Str) : Str :=
  "Invalid version constraint for '".data ++ depName ++
    "': Invalid version constraint: ".data ++ depVersion

/-- the invalid-constraint error when the `ValueError` comes from `int()`
inside `satisfies` (the interpolated Python message is abbreviated; no
claim depends on its text) -/
def invalidIntMsg (depName : Str) : Str :=
  "Invalid version constraint for '".data ++ depName ++
    "': invalid literal for int() with base 10".data

/-- the `try` block guarding one constraint check in
`validate_dependencies` -/
def checkConstraint (plugins : Registry) (depName depVersion : Str) : List Str :=
  match constraint_parse depVersion with
  | none => [invalidConstraintMsg depName depVersion]
  | some (op, v) =>
    let pluginVersion :=
      match lookupReg plugins depName with
      | some m => m.version.getD "0.0.0".data
      | none => "0.0.0".data
    match satisfies ⟨op, v⟩ pluginVersion with
    | some true => []
    | some false => [unsatisfiedMsg depName pluginVersion depVersion]
    | none => [invalidIntMsg depName]

/-- the errors contributed by one dependency declaration in
`validate_dependencies` -/
def depErrors (plugins : Registry) (dep : Dependency) : List Str :=
  if truthy dep.name then
    let depName := dep.name.getD []
    match lookupReg plugins depName with
    | none => [notFoundMsg depName]
    | some _ =>
      match dep.version with
      | some dv => if dv.isEmpty then [] else checkConstraint plugins depName dv
      | none => []
  else [missingNameMsg]

/-- the error-accumulating loop of `validate_dependencies` -/
def accumErrors (plugins : Registry) (deps : List Dependency) : List Str :=
  deps.foldl (fun errs dep => errs ++ depErrors plugins dep) []

/-- models `DependencyResolver.validate_dependencies` -/
def validate_dependencies (plugins : Registry) (manifest : Manifest) : Bool × List Str :=
  let errors := accumErrors plugins manifest.dependencies
  (errors.length == 0, errors)

/-- models `' -> '.join(cycle)` -/
def joinArrow : List Str → Str
  | [] => []
  | [x] => x
  | x :: xs => x ++ " -> ".data ++ joinArrow xs

/-- models `DependencyResolver.resolve_all_dependencies` -/
def resolve_all_dependencies (plugins : Registry) : Bool × List Str :=
  let cycleErrs := (detect_circular_dependencies plugins).map
    (fun cyc => "Circular dependency detected: ".data ++ joinArrow cyc)
  let errors := plugins.foldl
    (fun errs p =>
      let r := validate_dependencies plugins p.2
      if r.1 then errs
      else errs ++ r.2.map (fun e => "[".data ++ p.1 ++ "] ".data ++ e))
    cycleErrs
  (errors.length == 0, errors)

/-- a manifest file as the loader sees it: `none` models a file whose
parse raised an exception -/
abbrev LoadedFile := Option Manifest

/-- `self.plugins[name] = manifest`: replace in place, else append -/
def insertReg (reg : Registry) (n : Str) (m : Manifest) : Registry :=
  match reg with
  | [] => [(n, m)]
  | (k, v) :: rest => if k = n then (k, m) :: rest else (k, v) :: insertReg rest n m

/-- processing of one manifest file inside `load_plugins`: a file whose
parse raised is skipped with a warning, a manifest with a truthy name is
registered, anything else is skipped silently -/
def loadStep (acc : Registry × List Str) (file : LoadedFile) : Registry × List Str :=
  match file with
  | none => (acc.1, acc.2 ++ ["Warning: Failed to load".data])
  | some manifest =>
    if truthy manifest.name then
      (insertReg acc.1 (manifest.name.getD []) manifest, acc.2)
    else acc

/-- models `DependencyResolver.load_plugins`: the directory-existence guard
returns silently, a failing file only adds a warning, and a manifest is
registered only under a truthy name.  Returns the registry and the warning
messages printed to stderr (warning text abbreviated). -/
def load_plugins (dirExists : Bool) (files : List LoadedFile) : Registry × List Str :=
  if !dirExists then ([], [])
  else files.foldl loadStep ([], [])

/-- the edge relation of an adjacency structure -/
def hasEdge (g : Graph) (a b : Str) : Prop := ∃ p ∈ g, p.1 = a ∧ b ∈ p.2

/-- one manifest in a registry declares a dependency on `b` under key `a` -/
def edgeDeclared (reg : Registry) (a b : Str) : Prop :=
  ∃ m, (a, m) ∈ reg ∧ ∃ d ∈ m.dependencies, d.name = some b ∧ b ≠ []

/-! ## Order lemmas for version triples -/

lemma lexLt_irrefl (a : V) : ¬ lexLt a a := by
  obtain ⟨a1, a2, a3⟩ := a
  simp only [lexLt]
  omega

lemma lexLt_asymm {a b : V} (h : lexLt a b) : ¬ lexLt b a := by
  obtain ⟨a1, a2, a3⟩ := a
  obtain ⟨b1, b2, b3⟩ := b
  simp only [lexLt] at h ⊢
  omega

lemma lexLt_trichot (a b : V) : lexLt a b ∨ a = b ∨ lexLt b a := by
  obtain ⟨a1, a2, a3⟩ := a
  obtain ⟨b1, b2, b3⟩ := b
  simp only [lexLt, Prod.mk.injEq]
  omega

lemma compare_lt_iff (u w : V) : compare_versions u w < 0 ↔ lexLt u w := by
  unfold compare_versions
  split_ifs with h1 h2
  · simp [h1]
  · simp [h1]
  · simp [h1]

lemma compare_ge_iff (u w : V) : compare_versions u w ≥ 0 ↔ lexLe w u := by
  unfold compare_versions lexLe
  split_ifs with h1 h2
  · have hne : w ≠ u := by
      intro e; subst e; exact lexLt_irrefl w h1
    norm_num [lexLt_asymm h1, hne]
  · simp [h2]
  · rcases lexLt_trichot w u with h | h | h
    · exact absurd h h2
    · simp [h]
    · exact absurd h h1

/-! ## Operator dispatch lemmas -/

lemma satisfiesAux_tilde (v cand : Str) (rv cv : V)
    (h1 : parse_version v = some rv) (h2 : parse_version cand = some cv) :
    satisfiesAux "~>".data v cand
      = some (decide (compare_versions cv rv ≥ 0) &&
              decide (compare_versions cv (rv.1, rv.2.1 + 1, 0) < 0)) := by
  have e1 : (("~>".data : Str) = "=".data) = False := eq_false (by decide)
  have e2 : (("~>".data : Str) = ">=".data) = False := eq_false (by decide)
  have e3 : (("~>".data : Str) = "<=".data) = False := eq_false (by decide)
  have e4 : (("~>".data : Str) = ">".data) = False := eq_false (by decide)
  have e5 : (("~>".data : Str) = "<".data) = False := eq_false (by decide)
  simp only [satisfiesAux, h1, h2, e1, e2, e3, e4, e5, if_false,
    eq_self_iff_true, if_true]

lemma satisfiesAux_caret (v cand : Str) (rv cv : V)
    (h1 : parse_version v = some rv) (h2 : parse_version cand = some cv) :
    satisfiesAux "^".data v cand
      = some (decide (compare_versions cv rv ≥ 0) &&
              decide (compare_versions cv (rv.1 + 1, 0, 0) < 0)) := by
  have e1 : (("^".data : Str) = "=".data) = False := eq_false (by decide)
  have e2 : (("^".data : Str) = ">=".data) = False := eq_false (by decide)
  have e3 : (("^".data : Str) = "<=".data) = False := eq_false (by decide)
  have e4 : (("^".data : Str) = ">".data) = False := eq_false (by decide)
  have e5 : (("^".data : Str) = "<".data) = False := eq_false (by decide)
  have e6 : (("^".data : Str) = "~>".data) = False := eq_false (by decide)
  simp only [satisfiesAux, h1, h2, e1, e2, e3, e4, e5, e6, if_false,
    eq_self_iff_true, if_true]

/-! ## Claim theorems -/

/-- C2: for the pessimistic operator `~>`, `Satisfies(constraint, candidate)`
holds iff the parsed candidate triple is at least the parsed reference
triple and strictly below `(reference.major, reference.minor + 1, 0)`; the
upper bound increments the minor field of the parsed triple even for a
two-component constraint string such as `~>1.2`.  In particular
`Satisfies("~>1.2.3", "1.2.9")` is true and `Satisfies("~>1.2.3", "1.3.0")`
is false. -/
theorem spec_C2 :
    (∀ (v cand : Str) (rv cv : V),
        parse_version v = some rv → parse_version cand = some cv →
        (satisfies ⟨"~>".data, v⟩ cand = some true ↔
          lexLe rv cv ∧ lexLt cv (rv.1, rv.2.1 + 1, 0)))
    ∧ Satisfies "~>1.2.3".data "1.2.9".data = some true
    ∧ Satisfies "~>1.2.3".data "1.3.0".data = some false
    ∧ Satisfies "~>1.2".data "1.2.9".data = some true
    ∧ Satisfies "~>1.2".data "1.3.0".data = some false := by
  refine ⟨?_, by decide, by decide, by decide, by decide⟩
  intro v cand rv cv h1 h2
  show satisfiesAux "~>".data v cand = some true ↔ _
  rw [satisfiesAux_tilde v cand rv cv h1 h2]
  simp only [Option.some.injEq, Bool.and_eq_true, decide_eq_true_eq,
    compare_ge_iff, compare_lt_iff]

/-- witness for C2 at a concrete input -/
theorem spec_C2_witness :
    parse_version "1.2.3".data = some (1, 2, 3)
    ∧ parse_version "1.2.9".data = some (1, 2, 9)
    ∧ (satisfies ⟨"~>".data, "1.2.3".data⟩ "1.2.9".data = some true ↔
        lexLe (1, 2, 3) (1, 2, 9)
        ∧ lexLt (1, 2, 9) (((1, 2, 3) : V).1, ((1, 2, 3) : V).2.1 + 1, 0)) :=
  ⟨by decide, by decide,
    spec_C2.1 "1.2.3".data "1.2.9".data (1, 2, 3) (1, 2, 9) (by decide) (by decide)⟩

/-- C9: for the caret operator `^`, `Satisfies(constraint, candidate)` holds
iff the parsed candidate triple is at least the parsed reference triple and
strictly below `(reference.major + 1, 0, 0)`.  In particular
`Satisfies("^1.2.3", "1.9.9")` is true and `Satisfies("^1.2.3", "2.0.0")`
is false. -/
theorem spec_C9 :
    (∀ (v cand : Str) (rv cv : V),
        parse_version v = some rv → parse_version cand = some cv →
        (satisfies ⟨"^".data, v⟩ cand = some true ↔
          lexLe rv cv ∧ lexLt cv (rv.1 + 1, 0, 0)))
    ∧ Satisfies "^1.2.3".data "1.9.9".data = some true
    ∧ Satisfies "^1.2.3".data "2.0.0".data = some false := by
  refine ⟨?_, by decide, by decide⟩
  intro v cand rv cv h1 h2
  show satisfiesAux "^".data v cand = some true ↔ _
  rw [satisfiesAux_caret v cand rv cv h1 h2]
  simp only [Option.some.injEq, Bool.and_eq_true, decide_eq_true_eq,
    compare_ge_iff, compare_lt_iff]

/-- witness for C9 at a concrete input -/
theorem spec_C9_witness :
    parse_version "1.2.3".data = some (1, 2, 3)
    ∧ parse_version "1.9.9".data = some (1, 9, 9)
    ∧ (satisfies ⟨"^".data, "1.2.3".data⟩ "1.9.9".data = some true ↔
        lexLe (1, 2, 3) (1, 9, 9) ∧ lexLt (1, 9, 9) (((1, 2, 3) : V).1 + 1, 0, 0)) :=
  ⟨by decide, by decide,
    spec_C9.1 "1.2.3".data "1.9.9".data (1, 2, 3) (1, 9, 9) (by decide) (by decide)⟩

lemma satisfiesAux_eq_op (v cand : Str) (t1 t2 : V)
    (h1 : parse_version v = some t1) (h2 : parse_version cand = some t2) :
    satisfiesAux "=".data v cand = some (decide (v = cand)) := by
  simp only [satisfiesAux, h1, h2, eq_self_iff_true, if_true]

lemma satisfiesAux_ext (op : Str) (hop : (op = "=".data) = False)
    (v v' cand cand' : Str)
    (hv : parse_version v = parse_version v')
    (hc : parse_version cand = parse_version cand') :
    satisfiesAux op v cand = satisfiesAux op v' cand' := by
  simp only [satisfiesAux, hv, hc, hop, if_false]

/-- C1: for the `=` operator, `satisfies` compares the original version
strings for exact string equality (whenever both strings parse, the result
is exactly string equality), so `Satisfies("=1.2.0", "1.2")` is false even
though the two strings parse to the same triple; every operator other than
`=` depends only on the parsed triples of the two version strings. -/
theorem spec_C1 :
    (∀ (v cand : Str) (t1 t2 : V),
        parse_version v = some t1 → parse_version cand = some t2 →
        satisfies ⟨"=".data, v⟩ cand = some (decide (v = cand)))
    ∧ Satisfies "=1.2.0".data "1.2".data = some false
    ∧ parse_version "1.2".data = parse_version "1.2.0".data
    ∧ (∀ op : Str, op ≠ "=".data →
        ∀ v v' cand cand' : Str,
          parse_version v = parse_version v' →
          parse_version cand = parse_version cand' →
          satisfies ⟨op, v⟩ cand = satisfies ⟨op, v'⟩ cand') := by
  refine ⟨?_, by decide, by decide, ?_⟩
  · intro v cand t1 t2 h1 h2
    exact satisfiesAux_eq_op v cand t1 t2 h1 h2
  · intro op hop v v' cand cand' hv hc
    exact satisfiesAux_ext op (eq_false hop) v v' cand cand' hv hc

/-- witness for C1 at concrete inputs -/
theorem spec_C1_witness :
    parse_version "1.2.0".data = some (1, 2, 0)
    ∧ parse_version "1.2".data = some (1, 2, 0)
    ∧ satisfies ⟨"=".data, "1.2.0".data⟩ "1.2".data
        = some (decide (("1.2.0".data : Str) = "1.2".data))
    ∧ satisfies ⟨">=".data, "1.2".data⟩ "1.0".data
        = satisfies ⟨">=".data, "1.2.0".data⟩ "1.0.0".data :=
  ⟨by decide, by decide,
    spec_C1.1 "1.2.0".data "1.2".data (1, 2, 0) (1, 2, 0) (by decide) (by decide),
    spec_C1.2.2.2 ">=".data (by decide) "1.2".data "1.2.0".data "1.0".data
      "1.0.0".data (by decide) (by decide)⟩

lemma stripMeta_append (v rest : Str) (c : Char) (hc : isMetaStart c = true)
    (hv : ∀ ch ∈ v, isMetaStart ch = false)
    (hrest : ∀ ch ∈ rest, ch ≠ '\n') :
    stripMeta (v ++ c :: rest) = stripMeta v := by
  have hall : rest.all (fun ch => ch != '\n') = true := by
    rw [List.all_eq_true]
    intro ch hch
    simpa using hrest ch hch
  induction v with
  | nil =>
    simp [stripMeta, dotStarEndMatches, hc, hall]
  | cons a as ih =>
    have ha : isMetaStart a = false := hv a (List.mem_cons_self a as)
    have ih' := ih (fun ch h => hv ch (List.mem_cons_of_mem a h))
    simp [stripMeta, ha, ih']

lemma parse_version_none_iff (v : Str) :
    parse_version v = none
      ↔ (component (splitDots (stripMeta v)) 0 = none
        ∨ component (splitDots (stripMeta v)) 1 = none
        ∨ component (splitDots (stripMeta v)) 2 = none) := by
  simp only [parse_version]
  rcases h0 : component (splitDots (stripMeta v)) 0 with _ | a <;>
    rcases h1 : component (splitDots (stripMeta v)) 1 with _ | b <;>
      rcases h2 : component (splitDots (stripMeta v)) 2 with _ | c <;>
        simp

/-- C4 counterexample: the claim's rules are not those of the program.
`re.sub(r'[-+].*$', '', ...)` does NOT strip the suffix starting at the
first `-` when it contains an interior newline (the `$` anchor is
unreachable), so `ParseVersion("1.2.3-x\ny")` raises instead of equalling
`ParseVersion("1.2.3")`; and `int()` is more liberal than "a non-negative
integer": `" 2"` and `"1_0"` are accepted, and `"1.-2\n.3"` even yields the
negative component -2 with no `InvalidVersion`. -/
theorem spec_C4_counterexample :
    parse_version ("1.2.3".data ++ '-' :: "x\ny".data) = none
    ∧ parse_version "1.2.3".data = some (1, 2, 3)
    ∧ parse_version "1. 2.3".data = some (1, 2, 3)
    ∧ parse_version "1_0.2.3".data = some (10, 2, 3)
    ∧ parse_version "1.-2\n.3".data = some (1, -2, 3) := by
  refine ⟨by decide, by decide, by decide, by decide, by decide⟩

/-- C4 (amended): `ParseVersion` strips the suffix starting at the first
`-` or `+` from which the `$`-anchored pattern can reach the end — in
particular any newline-free suffix, so for valid semantic version strings
the result is unchanged by pre-release/build suffixes and
`ParseVersion("1.2.3-beta+001") = ParseVersion("1.2.3")`; it splits the
remainder on `.`, defaults missing trailing components to 0, and fails
exactly when one of the three components read is rejected by Python
`int()` (which also accepts surrounding whitespace, underscore digit
grouping and a sign, so a component need not be a plain non-negative
numeral). -/
theorem spec_C4 :
    parse_version "1.2.3-beta+001".data = parse_version "1.2.3".data
    ∧ (∀ (v rest : Str) (c : Char), (c = '-' ∨ c = '+') →
        (∀ ch ∈ v, ch ≠ '-' ∧ ch ≠ '+') →
        (∀ ch ∈ rest, ch ≠ '\n') →
        parse_version (v ++ c :: rest) = parse_version v)
    ∧ parse_version "1.2.3".data = some (1, 2, 3)
    ∧ parse_version "1.2".data = some (1, 2, 0)
    ∧ parse_version "1".data = some (1, 0, 0)
    ∧ parse_version "1. 2.3".data = some (1, 2, 3)
    ∧ parse_version "1_0.2.3".data = some (10, 2, 3)
    ∧ (∀ (v : Str) (i : Nat) (p : Str), i < 3 →
        (splitDots (stripMeta v)).get? i = some p →
        pyInt p = none →
        parse_version v = none) := by
  refine ⟨by decide, ?_, by decide, by decide, by decide, by decide, by decide, ?_⟩
  · intro v rest c hc hv hrest
    have hc' : isMetaStart c = true := by
      rcases hc with h | h <;> simp [isMetaStart, h]
    have hv' : ∀ ch ∈ v, isMetaStart ch = false := by
      intro ch h
      simp [isMetaStart, (hv ch h).1, (hv ch h).2]
    simp only [parse_version, stripMeta_append v rest c hc' hv' hrest]
  · intro v i p hi hp hpi
    have hcomp : component (splitDots (stripMeta v)) i = none := by
      unfold component; rw [hp]; exact hpi
    rw [parse_version_none_iff]
    interval_cases i
    · exact Or.inl hcomp
    · exact Or.inr (Or.inl hcomp)
    · exact Or.inr (Or.inr hcomp)

/-- witness for C4 at a concrete input -/
theorem spec_C4_witness :
    ('-' = '-' ∨ '-' = '+')
    ∧ (∀ ch ∈ ("1.2.3".data : Str), ch ≠ '-' ∧ ch ≠ '+')
    ∧ (∀ ch ∈ ("beta".data : Str), ch ≠ '\n')
    ∧ parse_version ("1.2.3".data ++ '-' :: "beta".data) = parse_version "1.2.3".data :=
  ⟨Or.inl rfl, by decide, by decide,
    spec_C4.2.1 "1.2.3".data "beta".data '-' (Or.inl rfl) (by decide) (by decide)⟩

lemma opSplit?_some_iff (op s rest : Str) :
    opSplit? op s = some rest ↔ s = op ++ rest := by
  induction op generalizing s with
  | nil => simp [opSplit?]
  | cons o os ih =>
    cases s with
    | nil => simp [opSplit?]
    | cons c cs =>
      simp only [opSplit?]
      by_cases h : c = o
      · subst h
        simp [ih]
      · simp [h]

lemma opSplit?_none_iff (op s : Str) :
    opSplit? op s = none ↔ ∀ rest, s ≠ op ++ rest := by
  constructor
  · intro hnone rest hEq
    have hsome := (opSplit?_some_iff op s rest).mpr hEq
    rw [hnone] at hsome
    exact Option.noConfusion hsome
  · intro hall
    rcases h : opSplit? op s with _ | r
    · rfl
    · exact absurd ((opSplit?_some_iff op s r).mp h) (hall r)

lemma matchOp_none_iff (ops : List Str) (s : Str) :
    matchOp ops s = none
      ↔ ∀ op ∈ ops, ∀ rest : Str, rest = [] ∨ s ≠ op ++ rest := by
  induction ops with
  | nil => simp [matchOp]
  | cons op ops ih =>
    rcases hsplit : opSplit? op s with _ | r
    · have hno : ∀ rest, s ≠ op ++ rest := (opSplit?_none_iff op s).mp hsplit
      simp only [matchOp, hsplit]
      rw [ih]
      constructor
      · intro htail o ho rest
        rcases List.mem_cons.mp ho with rfl | ho'
        · exact Or.inr (hno rest)
        · exact htail o ho' rest
      · intro hall o ho rest
        exact hall o (List.mem_cons_of_mem op ho) rest
    · by_cases hr : r = []
      · subst hr
        have hs : s = op := by
          have := (opSplit?_some_iff op s []).mp hsplit
          simpa using this
        simp only [matchOp, hsplit, eq_self_iff_true, if_true]
        rw [ih]
        constructor
        · intro htail o ho rest
          rcases List.mem_cons.mp ho with rfl | ho'
          · by_cases hrest : rest = []
            · exact Or.inl hrest
            · refine Or.inr ?_
              intro hcontra
              rw [hs] at hcontra
              have hlen := congrArg List.length hcontra
              rw [List.length_append] at hlen
              have : rest.length = 0 := by omega
              exact hrest (List.length_eq_zero.mp this)
          · exact htail o ho' rest
        · intro hall o ho rest
          exact hall o (List.mem_cons_of_mem op ho) rest
      · simp only [matchOp, hsplit, if_neg hr]
        refine iff_of_false (by simp) ?_
        intro hall
        rcases hall op (List.mem_cons_self op ops) r with h' | h'
        · exact hr h'
        · exact h' ((opSplit?_some_iff op s r).mp hsplit)

lemma matchOp_some (ops : List Str) (s op rest : Str)
    (h : matchOp ops s = some (op, rest)) :
    op ∈ ops ∧ rest ≠ [] ∧ s = op ++ rest := by
  induction ops with
  | nil => simp [matchOp] at h
  | cons o os ih =>
    rcases hsplit : opSplit? o s with _ | r
    · simp only [matchOp, hsplit] at h
      obtain ⟨h1, h2, h3⟩ := ih h
      exact ⟨List.mem_cons_of_mem o h1, h2, h3⟩
    · by_cases hr : r = []
      · simp only [matchOp, hsplit, if_pos hr] at h
        obtain ⟨h1, h2, h3⟩ := ih h
        exact ⟨List.mem_cons_of_mem o h1, h2, h3⟩
      · simp only [matchOp, hsplit, if_neg hr, Option.some.injEq,
          Prod.mk.injEq] at h
        obtain ⟨h1, h2⟩ := h
        subst h1
        subst h2
        exact ⟨List.mem_cons_self _ _, hr, (opSplit?_some_iff _ _ _).mp hsplit⟩

/-- C7: `Parse` fails (raises `ValueError`, modelled `none`) exactly when
the input cannot be decomposed as one of the seven recognized operators
followed by a non-empty version part, and on success it returns such an
operator together with the remainder of the string.  The hypothesis
restricts to newline-free strings, where the model of the anchored regex
`^(>=|<=|>|<|~>|=|\^)(.+)$` is exact. -/
theorem spec_C7 (s : Str) (_hnl : '\n' ∉ s) :
    (constraint_parse s = none
      ↔ ¬ ∃ op ∈ operators, ∃ rest : Str, rest ≠ [] ∧ s = op ++ rest)
    ∧ (∀ op rest : Str, constraint_parse s = some (op, rest) →
        op ∈ operators ∧ rest ≠ [] ∧ s = op ++ rest) := by
  constructor
  · rw [constraint_parse, matchOp_none_iff]
    constructor
    · intro hall hex
      obtain ⟨op, hop, rest, hne, heq⟩ := hex
      rcases hall op hop rest with h | h
      · exact hne h
      · exact h heq
    · intro hnex op hop rest
      by_cases hrest : rest = []
      · exact Or.inl hrest
      · refine Or.inr ?_
        intro heq
        exact hnex ⟨op, hop, rest, hrest, heq⟩
  · intro op rest h
    exact matchOp_some operators s op rest h

/-- witness for C7 at a concrete input -/
theorem spec_C7_witness :
    '\n' ∉ (">=1.0".data : Str)
    ∧ ((constraint_parse ">=1.0".data = none
        ↔ ¬ ∃ op ∈ operators, ∃ rest : Str, rest ≠ [] ∧ ">=1.0".data = op ++ rest)
      ∧ (∀ op rest : Str, constraint_parse ">=1.0".data = some (op, rest) →
          op ∈ operators ∧ rest ≠ [] ∧ ">=1.0".data = op ++ rest)) :=
  ⟨by decide, spec_C7 ">=1.0".data (by decide)⟩

lemma accumErrors_go (plugins : Registry) (ds : List Dependency) (acc : List Str) :
    ds.foldl (fun errs dep => errs ++ depErrors plugins dep) acc
      = acc ++ accumErrors plugins ds := by
  induction ds generalizing acc with
  | nil => simp [accumErrors]
  | cons d ds ih =>
    simp only [List.foldl_cons, accumErrors]
    rw [ih, ih]
    simp [List.append_assoc]

lemma accumErrors_append (plugins : Registry) (ds1 ds2 : List Dependency) :
    accumErrors plugins (ds1 ++ ds2)
      = accumErrors plugins ds1 ++ accumErrors plugins ds2 := by
  rw [accumErrors, List.foldl_append, accumErrors_go]
  rfl

/-- C6: `Validate` accumulates one error per failing dependency declaration
and never short-circuits (the errors of a concatenation of declaration
lists are the concatenation of their errors); for a manifest whose single
dependency declaration names a plugin absent from the registry it returns
`ok = false` with exactly the one not-found error, and no constraint check
is attempted (the declared constraint string never matters). -/
theorem spec_C6 :
    (∀ (plugins : Registry) (manifest : Manifest) (dep : Dependency) (n : Str),
        manifest.dependencies = [dep] → dep.name = some n → n ≠ [] →
        lookupReg plugins n = none →
        validate_dependencies plugins manifest = (false, [notFoundMsg n]))
    ∧ (∀ (plugins : Registry) (ds1 ds2 : List Dependency),
        accumErrors plugins (ds1 ++ ds2)
          = accumErrors plugins ds1 ++ accumErrors plugins ds2) := by
  refine ⟨?_, accumErrors_append⟩
  intro plugins manifest dep n hdeps hname hn hlook
  have ht : truthy (some n) = true := by
    simp [truthy, List.isEmpty_iff, hn]
  simp [validate_dependencies, accumErrors, hdeps, depErrors, ht, hname, hlook]

/-- witness for C6 at a concrete input -/
theorem spec_C6_witness :
    ((⟨some "A".data, none, [⟨some "B".data, some ">=1.0.0".data⟩]⟩ : Manifest).dependencies
        = [⟨some "B".data, some ">=1.0.0".data⟩])
    ∧ ("B".data : Str) ≠ []
    ∧ lookupReg [] "B".data = none
    ∧ validate_dependencies []
        ⟨some "A".data, none, [⟨some "B".data, some ">=1.0.0".data⟩]⟩
        = (false, [notFoundMsg "B".data]) :=
  ⟨rfl, by decide, rfl,
    spec_C6.1 [] ⟨some "A".data, none, [⟨some "B".data, some ">=1.0.0".data⟩]⟩
      ⟨some "B".data, some ">=1.0.0".data⟩ "B".data rfl rfl (by decide) rfl⟩

lemma validate_default_version (plugins : Registry) (manifest m : Manifest)
    (dep : Dependency) (n cv op v : Str) (b : Bool)
    (hdeps : manifest.dependencies = [dep]) (hname : dep.name = some n)
    (hn : n ≠ []) (hver : dep.version = some cv) (hcv : cv ≠ [])
    (hlook : lookupReg plugins n = some m) (hmv : m.version = none)
    (hparse : constraint_parse cv = some (op, v))
    (hsat : satisfiesAux op v "0.0.0".data = some b) :
    validate_dependencies plugins manifest
      = (b, if b then [] else [unsatisfiedMsg n "0.0.0".data cv]) := by
  have ht : truthy (some n) = true := by
    simp [truthy, List.isEmpty_iff, hn]
  have hcv' : cv.isEmpty = false := by
    simp [List.isEmpty_iff, hcv]
  cases b <;>
    simp [validate_dependencies, accumErrors, hdeps, depErrors, ht, hname,
      hver, hcv, hcv', hlook, checkConstraint, hparse, satisfies, hmv, hsat]

/-- C10: when a declared dependency carries a constraint and names a plugin
registered with no `version` field, the constraint is checked against the
default string `0.0.0` (the satisfaction verdict at `0.0.0` alone decides
the outcome, and any error names actual version `0.0.0`); with constraint
`>=1.0.0` this yields exactly one unsatisfied-version error naming `0.0.0`. -/
theorem spec_C10 :
    (∀ (plugins : Registry) (manifest m : Manifest) (dep : Dependency)
        (n cv op v : Str) (b : Bool),
        manifest.dependencies = [dep] → dep.name = some n → n ≠ [] →
        dep.version = some cv → cv ≠ [] →
        lookupReg plugins n = some m → m.version = none →
        constraint_parse cv = some (op, v) →
        satisfiesAux op v "0.0.0".data = some b →
        validate_dependencies plugins manifest
          = (b, if b then [] else [unsatisfiedMsg n "0.0.0".data cv]))
    ∧ (∀ (plugins : Registry) (manifest m : Manifest) (dep : Dependency) (n : Str),
        manifest.dependencies = [dep] → dep.name = some n → n ≠ [] →
        dep.version = some ">=1.0.0".data →
        lookupReg plugins n = some m → m.version = none →
        validate_dependencies plugins manifest
          = (false, [unsatisfiedMsg n "0.0.0".data ">=1.0.0".data])) := by
  constructor
  · intro plugins manifest m dep n cv op v b hdeps hname hn hver hcv hlook hmv hparse hsat
    exact validate_default_version plugins manifest m dep n cv op v b
      hdeps hname hn hver hcv hlook hmv hparse hsat
  · intro plugins manifest m dep n hdeps hname hn hver hlook hmv
    have h := validate_default_version plugins manifest m dep n ">=1.0.0".data
      ">=".data "1.0.0".data false hdeps hname hn hver (by decide) hlook hmv
      (by decide) (by decide)
    simpa using h

/-- witness for C10 at a concrete input -/
theorem spec_C10_witness :
    ((⟨some "H".data, none, [⟨some "P".data, some ">=1.0.0".data⟩]⟩ : Manifest).dependencies
        = [⟨some "P".data, some ">=1.0.0".data⟩])
    ∧ ("P".data : Str) ≠ []
    ∧ lookupReg [("P".data, ⟨some "P".data, none, []⟩)] "P".data
        = some ⟨some "P".data, none, []⟩
    ∧ validate_dependencies [("P".data, ⟨some "P".data, none, []⟩)]
        ⟨some "H".data, none, [⟨some "P".data, some ">=1.0.0".data⟩]⟩
        = (false, [unsatisfiedMsg "P".data "0.0.0".data ">=1.0.0".data]) :=
  ⟨rfl, by decide, by decide,
    spec_C10.2 [("P".data, ⟨some "P".data, none, []⟩)]
      ⟨some "H".data, none, [⟨some "P".data, some ">=1.0.0".data⟩]⟩
      ⟨some "P".data, none, []⟩ ⟨some "P".data, some ">=1.0.0".data⟩
      "P".data rfl rfl (by decide) rfl (by decide) rfl⟩

lemma loadStep_fst (files : List LoadedFile) (r : Registry) (w w' : List Str) :
    (files.foldl loadStep (r, w)).1 = (files.foldl loadStep (r, w')).1 := by
  induction files generalizing r w w' with
  | nil => rfl
  | cons f fs ih =>
    cases f with
    | none => simpa [loadStep] using ih r _ _
    | some m =>
      by_cases ht : truthy m.name
      · simpa [loadStep, ht] using ih _ w w'
      · simpa [loadStep, ht] using ih r w w'

/-- C5 counterexample: with the manifests directory missing, `load_plugins`
returns silently with an empty registry and no warning, and the subsequent
full resolution run reports success with zero errors — no distinct I/O
error is ever reported. -/
theorem spec_C5_counterexample :
    load_plugins false [some ⟨some "A".data, some "1.0.0".data, []⟩] = ([], [])
    ∧ resolve_all_dependencies [] = (true, []) := by
  constructor
  · rfl
  · decide

/-- C5 (amended): when the manifests directory does not exist, the loader
returns silently with an empty registry and no warnings (regardless of what
files would have been found), and the resolver then reports overall success
with no errors; a file that fails to parse is skipped with a warning and
does not change the resulting registry (no fatal failure for data-quality
problems). -/
theorem spec_C5 :
    (∀ files : List LoadedFile, load_plugins false files = ([], []))
    ∧ resolve_all_dependencies [] = (true, [])
    ∧ (∀ files : List LoadedFile,
        (load_plugins true (none :: files)).1 = (load_plugins true files).1) := by
  refine ⟨?_, by decide, ?_⟩
  · intro files
    simp [load_plugins]
  · intro files
    simp only [load_plugins, Bool.not_true, List.foldl_cons]
    have h : loadStep ([], []) none = ([], ["Warning: Failed to load".data]) := rfl
    rw [h]
    exact loadStep_fst files [] _ _

/-! ## Graph construction (C8) -/

lemma pyMem_iff (x : Str) (l : List Str) : pyMem x l = true ↔ x ∈ l := by
  induction l with
  | nil => simp [pyMem]
  | cons y ys ih =>
    by_cases h : x = y
    · subst h
      simp [pyMem]
    · simp [pyMem, h, ih]

lemma hasEdge_addEdge (g : Graph) (a b x y : Str) :
    hasEdge (addEdge g a b) x y ↔ (x = a ∧ y = b) ∨ hasEdge g x y := by
  induction g with
  | nil =>
    constructor
    · rintro ⟨p, hp, h1, h2⟩
      have hp' : p = (a, [b]) := List.mem_singleton.mp hp
      subst hp'
      exact Or.inl ⟨h1.symm, List.mem_singleton.mp h2⟩
    · rintro (⟨rfl, rfl⟩ | ⟨p, hp, _⟩)
      · exact ⟨(x, [y]), List.mem_singleton.mpr rfl, rfl, List.mem_singleton.mpr rfl⟩
      · exact absurd hp (List.not_mem_nil p)
  | cons p g ih =>
    obtain ⟨k, l⟩ := p
    by_cases hk : k = a
    · subst hk
      have hmem : ∀ z, z ∈ (if pyMem b l then l else l ++ [b]) ↔ z = b ∨ z ∈ l := by
        intro z
        by_cases hb : pyMem b l
        · rw [if_pos hb]
          have hbl : b ∈ l := (pyMem_iff b l).mp hb
          constructor
          · exact fun h => Or.inr h
          · rintro (rfl | h)
            · exact hbl
            · exact h
        · rw [if_neg hb]
          simp [or_comm]
      simp only [addEdge, eq_self_iff_true, if_true, hasEdge, List.mem_cons]
      constructor
      · rintro ⟨q, hq | hq, h1, h2⟩
        · subst hq
          simp only at h1 h2
          rcases (hmem y).mp h2 with rfl | hy
          · exact Or.inl ⟨h1.symm, rfl⟩
          · exact Or.inr ⟨(k, l), Or.inl rfl, h1, hy⟩
        · exact Or.inr ⟨q, Or.inr hq, h1, h2⟩
      · rintro (⟨rfl, rfl⟩ | ⟨q, hq | hq, h1, h2⟩)
        · exact ⟨(x, if pyMem y l then l else l ++ [y]), Or.inl rfl, rfl,
            (hmem y).mpr (Or.inl rfl)⟩
        · subst hq
          simp only at h1 h2
          exact ⟨(k, if pyMem b l then l else l ++ [b]), Or.inl rfl, h1,
            (hmem y).mpr (Or.inr h2)⟩
        · exact ⟨q, Or.inr hq, h1, h2⟩
    · simp only [addEdge, hk, if_false, hasEdge, List.mem_cons]
      constructor
      · rintro ⟨q, hq | hq, h1, h2⟩
        · subst hq
          exact Or.inr ⟨(k, l), Or.inl rfl, h1, h2⟩
        · rcases (ih).mp ⟨q, hq, h1, h2⟩ with h | ⟨r, hr, hr1, hr2⟩
          · exact Or.inl h
          · exact Or.inr ⟨r, Or.inr hr, hr1, hr2⟩
      · rintro (⟨rfl, rfl⟩ | ⟨q, hq | hq, h1, h2⟩)
        · obtain ⟨r, hr, hr1, hr2⟩ := (ih).mpr (Or.inl ⟨rfl, rfl⟩)
          exact ⟨r, Or.inr hr, hr1, hr2⟩
        · subst hq
          exact ⟨(k, l), Or.inl rfl, h1, h2⟩
        · obtain ⟨r, hr, hr1, hr2⟩ := (ih).mpr (Or.inr ⟨q, hq, h1, h2⟩)
          exact ⟨r, Or.inr hr, hr1, hr2⟩

lemma truthy_name_iff (d : Dependency) (y : Str) :
    (truthy d.name = true ∧ d.name.getD [] = y) ↔ (d.name = some y ∧ y ≠ []) := by
  cases hd : d.name with
  | none => simp [truthy]
  | some s =>
    constructor
    · rintro ⟨h1, h2⟩
      simp only [Option.getD_some] at h2
      subst h2
      refine ⟨rfl, ?_⟩
      intro hnil
      rw [hnil] at h1
      exact absurd h1 (by decide)
    · rintro ⟨h1, h2⟩
      injection h1 with hs
      subst hs
      refine ⟨?_, rfl⟩
      simp [truthy, List.isEmpty_iff, h2]

lemma addDeps_cons (name : Str) (d : Dependency) (ds : List Dependency)
    (gs : Graph × Graph) :
    addDeps name (d :: ds) gs
      = addDeps name ds
          (if truthy d.name then
            (addEdge gs.1 name (d.name.getD []), addEdge gs.2 (d.name.getD []) name)
          else gs) := rfl

lemma hasEdge_addDeps_fst (name : Str) (deps : List Dependency)
    (gs : Graph × Graph) (x y : Str) :
    hasEdge (addDeps name deps gs).1 x y
      ↔ (x = name ∧ ∃ d ∈ deps, d.name = some y ∧ y ≠ []) ∨ hasEdge gs.1 x y := by
  induction deps generalizing gs with
  | nil => simp [addDeps]
  | cons d ds ih =>
    rw [addDeps_cons]
    by_cases ht : truthy d.name = true
    · rw [if_pos ht, ih, hasEdge_addEdge]
      constructor
      · rintro (⟨rfl, d', hd', h1, h2⟩ | ⟨rfl, rfl⟩ | h)
        · exact Or.inl ⟨rfl, d', List.mem_cons_of_mem d hd', h1, h2⟩
        · have := (truthy_name_iff d (d.name.getD [])).mp ⟨ht, rfl⟩
          exact Or.inl ⟨rfl, d, List.mem_cons_self d ds, this.1, this.2⟩
        · exact Or.inr h
      · rintro (⟨rfl, d', hd', h1, h2⟩ | h)
        · rcases List.mem_cons.mp hd' with rfl | hd''
          · refine Or.inr (Or.inl ⟨rfl, ?_⟩)
            rw [h1]
            rfl
          · exact Or.inl ⟨rfl, d', hd'', h1, h2⟩
        · exact Or.inr (Or.inr h)
    · rw [if_neg ht, ih]
      constructor
      · rintro (⟨rfl, d', hd', h1, h2⟩ | h)
        · exact Or.inl ⟨rfl, d', List.mem_cons_of_mem d hd', h1, h2⟩
        · exact Or.inr h
      · rintro (⟨rfl, d', hd', h1, h2⟩ | h)
        · rcases List.mem_cons.mp hd' with rfl | hd''
          · exact absurd ((truthy_name_iff d' y).mpr ⟨h1, h2⟩).1 ht
          · exact Or.inl ⟨rfl, d', hd'', h1, h2⟩
        · exact Or.inr h

lemma hasEdge_addDeps_snd (name : Str) (deps : List Dependency)
    (gs : Graph × Graph) (x y : Str) :
    hasEdge (addDeps name deps gs).2 x y
      ↔ (y = name ∧ ∃ d ∈ deps, d.name = some x ∧ x ≠ []) ∨ hasEdge gs.2 x y := by
  induction deps generalizing gs with
  | nil => simp [addDeps]
  | cons d ds ih =>
    rw [addDeps_cons]
    by_cases ht : truthy d.name = true
    · rw [if_pos ht, ih, hasEdge_addEdge]
      constructor
      · rintro (⟨rfl, d', hd', h1, h2⟩ | ⟨rfl, rfl⟩ | h)
        · exact Or.inl ⟨rfl, d', List.mem_cons_of_mem d hd', h1, h2⟩
        · have := (truthy_name_iff d (d.name.getD [])).mp ⟨ht, rfl⟩
          exact Or.inl ⟨rfl, d, List.mem_cons_self d ds, this.1, this.2⟩
        · exact Or.inr h
      · rintro (⟨rfl, d', hd', h1, h2⟩ | h)
        · rcases List.mem_cons.mp hd' with rfl | hd''
          · refine Or.inr (Or.inl ⟨?_, rfl⟩)
            rw [h1]
            rfl
          · exact Or.inl ⟨rfl, d', hd'', h1, h2⟩
        · exact Or.inr (Or.inr h)
    · rw [if_neg ht, ih]
      constructor
      · rintro (⟨rfl, d', hd', h1, h2⟩ | h)
        · exact Or.inl ⟨rfl, d', List.mem_cons_of_mem d hd', h1, h2⟩
        · exact Or.inr h
      · rintro (⟨rfl, d', hd', h1, h2⟩ | h)
        · rcases List.mem_cons.mp hd' with rfl | hd''
          · exact absurd ((truthy_name_iff d' x).mpr ⟨h1, h2⟩).1 ht
          · exact Or.inl ⟨rfl, d', hd'', h1, h2⟩
        · exact Or.inr h

lemma hasEdge_build_go_fst (reg : Registry) (gs : Graph × Graph) (x y : Str) :
    hasEdge (reg.foldl (fun gs p => addDeps p.1 p.2.dependencies gs) gs).1 x y
      ↔ edgeDeclared reg x y ∨ hasEdge gs.1 x y := by
  induction reg generalizing gs with
  | nil => simp [edgeDeclared]
  | cons p reg ih =>
    obtain ⟨k, m⟩ := p
    simp only [List.foldl_cons]
    rw [ih, hasEdge_addDeps_fst]
    constructor
    · rintro (⟨m', hm', h⟩ | ⟨hx, h⟩ | h)
      · exact Or.inl ⟨m', List.mem_cons_of_mem (k, m) hm', h⟩
      · refine Or.inl ⟨m, List.mem_cons.mpr (Or.inl ?_), h⟩
        rw [hx]
      · exact Or.inr h
    · rintro (⟨m', hm', h⟩ | h)
      · rcases List.mem_cons.mp hm' with heq | hm''
        · have hx : x = k := congrArg Prod.fst heq
          have hm : m' = m := congrArg Prod.snd heq
          exact Or.inr (Or.inl ⟨hx, hm ▸ h⟩)
        · exact Or.inl ⟨m', hm'', h⟩
      · exact Or.inr (Or.inr h)

lemma hasEdge_build_go_snd (reg : Registry) (gs : Graph × Graph) (x y : Str) :
    hasEdge (reg.foldl (fun gs p => addDeps p.1 p.2.dependencies gs) gs).2 x y
      ↔ edgeDeclared reg y x ∨ hasEdge gs.2 x y := by
  induction reg generalizing gs with
  | nil => simp [edgeDeclared]
  | cons p reg ih =>
    obtain ⟨k, m⟩ := p
    simp only [List.foldl_cons]
    rw [ih, hasEdge_addDeps_snd]
    constructor
    · rintro (⟨m', hm', h⟩ | ⟨hy, h⟩ | h)
      · exact Or.inl ⟨m', List.mem_cons_of_mem (k, m) hm', h⟩
      · refine Or.inl ⟨m, List.mem_cons.mpr (Or.inl ?_), h⟩
        rw [hy]
      · exact Or.inr h
    · rintro (⟨m', hm', h⟩ | h)
      · rcases List.mem_cons.mp hm' with heq | hm''
        · have hy : y = k := congrArg Prod.fst heq
          have hm : m' = m := congrArg Prod.snd heq
          exact Or.inr (Or.inl ⟨hy, hm ▸ h⟩)
        · exact Or.inl ⟨m', hm'', h⟩
      · exact Or.inr (Or.inr h)

/-- C8: `Build` adds the forward edge manifest-name → dependency-name and
the mirrored reverse edge for exactly the dependency declarations with a
non-empty name, independent of whether the dependency name is a key of the
registry; declarations with no name (or an empty name) contribute no edge,
and graph construction is total (it never fails on unresolved names). -/
theorem spec_C8 (reg : Registry) (a b : Str) :
    (hasEdge (build_dependency_graph reg).1 a b ↔ edgeDeclared reg a b)
    ∧ (hasEdge (build_dependency_graph reg).2 b a ↔ edgeDeclared reg a b) := by
  constructor
  · rw [build_dependency_graph, hasEdge_build_go_fst]
    simp [hasEdge]
  · rw [build_dependency_graph, hasEdge_build_go_snd]
    simp [hasEdge]

/-! ## Cycle detection on a three-cycle (C3) -/

lemma dfs3 (g : Graph) (x y z : Str) (hxy : x ≠ y) (hyz : y ≠ z) (hxz : x ≠ z)
    (hax : adjOf g x = [y]) (hay : adjOf g y = [z]) (haz : adjOf g z = [x]) (n : Nat) :
    dfsVisit g (n + 1 + 1 + 1) x ⟨[], [], [], []⟩
      = ⟨[x, y, z], [], [], [[x, y, z, x]]⟩ := by
  simp [dfsVisit, hax, hay, haz, pyMem, pathIndex, removeFirst, popLast,
    hxy, hyz, hxz, hxy.symm, hyz.symm, hxz.symm]

lemma rootsSkip (g : Graph) (fuel : Nat) (rest : List Str) (s : DfsState)
    (h : ∀ r ∈ rest, pyMem r s.visited = true) :
    rest.foldl
      (fun s node => if pyMem node s.visited then s else dfsVisit g fuel node s) s
      = s := by
  induction rest with
  | nil => rfl
  | cons r rs ih =>
    simp only [List.foldl_cons, h r (List.mem_cons_self r rs), if_true]
    exact ih (fun r' hr' => h r' (List.mem_cons_of_mem r hr'))

lemma findCycles3 (g : Graph) (x y z : Str) (hxy : x ≠ y) (hyz : y ≠ z) (hxz : x ≠ z)
    (hax : adjOf g x = [y]) (hay : adjOf g y = [z]) (haz : adjOf g z = [x]) (n : Nat)
    (rest : List Str) (hrest : ∀ r ∈ rest, r = x ∨ r = y ∨ r = z) :
    findCycles g (n + 1 + 1 + 1) (x :: rest) = [[x, y, z, x]] := by
  unfold findCycles
  simp only [List.foldl_cons]
  have h0 : pyMem x (DfsState.mk [] [] [] []).visited = false := rfl
  rw [if_neg (by rw [h0]; exact Bool.false_ne_true)]
  rw [dfs3 g x y z hxy hyz hxz hax hay haz n]
  rw [rootsSkip]
  intro r hr
  rcases hrest r hr with rfl | rfl | rfl <;>
    simp [pyMem, hxy.symm, hyz.symm, hxz.symm]

lemma detect3_L1 (x y z : Str) (vx vy vz : Option Str)
    (hxy : x ≠ y) (hyz : y ≠ z) (hxz : x ≠ z)
    (hx : x ≠ []) (hy : y ≠ []) (hz : z ≠ []) :
    detect_circular_dependencies
        [(x, ⟨some x, vx, [⟨some y, none⟩]⟩),
         (y, ⟨some y, vy, [⟨some z, none⟩]⟩),
         (z, ⟨some z, vz, [⟨some x, none⟩]⟩)]
      = [[x, y, z, x]] := by
  have tx : truthy (some x) = true := by simp [truthy, List.isEmpty_iff, hx]
  have ty : truthy (some y) = true := by simp [truthy, List.isEmpty_iff, hy]
  have tz : truthy (some z) = true := by simp [truthy, List.isEmpty_iff, hz]
  have hg : (build_dependency_graph
      [(x, ⟨some x, vx, [⟨some y, none⟩]⟩),
       (y, ⟨some y, vy, [⟨some z, none⟩]⟩),
       (z, ⟨some z, vz, [⟨some x, none⟩]⟩)]).1
      = [(x, [y]), (y, [z]), (z, [x])] := by
    simp [build_dependency_graph, addDeps, addEdge, tx, ty, tz,
      hxy, hyz, hxz, hxy.symm, hyz.symm, hxz.symm]
  simp only [detect_circular_dependencies, hg]
  have hfuel : (([(x, ⟨some x, vx, [⟨some y, none⟩]⟩),
      (y, ⟨some y, vy, [⟨some z, none⟩]⟩),
      (z, ⟨some z, vz, [⟨some x, none⟩]⟩)] : Registry).length
      + graphSize [(x, [y]), (y, [z]), (z, [x])] + 1) = 7 + 1 + 1 + 1 := by
    simp [graphSize]
  rw [hfuel]
  have hroots : ([(x, ⟨some x, vx, [⟨some y, none⟩]⟩),
      (y, ⟨some y, vy, [⟨some z, none⟩]⟩),
      (z, ⟨some z, vz, [⟨some x, none⟩]⟩)] : Registry).map (fun p => p.1)
      = x :: [y, z] := by
    simp
  rw [hroots]
  refine findCycles3 _ x y z hxy hyz hxz ?_ ?_ ?_ 7 [y, z] ?_
  · simp [adjOf]
  · simp [adjOf, hxy, hyz, hxz, hxy.symm, hyz.symm, hxz.symm]
  · simp [adjOf, hxy, hyz, hxz, hxy.symm, hyz.symm, hxz.symm]
  · intro r hr
    rcases List.mem_cons.mp hr with rfl | hr'
    · exact Or.inr (Or.inl rfl)
    · rcases List.mem_singleton.mp hr' with rfl
      exact Or.inr (Or.inr rfl)

lemma detect3_L2 (x y z : Str) (vx vy vz : Option Str)
    (hxy : x ≠ y) (hyz : y ≠ z) (hxz : x ≠ z)
    (hx : x ≠ []) (hy : y ≠ []) (hz : z ≠ []) :
    detect_circular_dependencies
        [(x, ⟨some x, vx, [⟨some y, none⟩]⟩),
         (z, ⟨some z, vz, [⟨some x, none⟩]⟩),
         (y, ⟨some y, vy, [⟨some z, none⟩]⟩)]
      = [[x, y, z, x]] := by
  have tx : truthy (some x) = true := by simp [truthy, List.isEmpty_iff, hx]
  have ty : truthy (some y) = true := by simp [truthy, List.isEmpty_iff, hy]
  have tz : truthy (some z) = true := by simp [truthy, List.isEmpty_iff, hz]
  have hg : (build_dependency_graph
      [(x, ⟨some x, vx, [⟨some y, none⟩]⟩),
       (z, ⟨some z, vz, [⟨some x, none⟩]⟩),
       (y, ⟨some y, vy, [⟨some z, none⟩]⟩)]).1
      = [(x, [y]), (z, [x]), (y, [z])] := by
    simp [build_dependency_graph, addDeps, addEdge, tx, ty, tz,
      hxy, hyz, hxz, hxy.symm, hyz.symm, hxz.symm]
  simp only [detect_circular_dependencies, hg]
  have hfuel : (([(x, ⟨some x, vx, [⟨some y, none⟩]⟩),
      (z, ⟨some z, vz, [⟨some x, none⟩]⟩),
      (y, ⟨some y, vy, [⟨some z, none⟩]⟩)] : Registry).length
      + graphSize [(x, [y]), (z, [x]), (y, [z])] + 1) = 7 + 1 + 1 + 1 := by
    simp [graphSize]
  rw [hfuel]
  have hroots : ([(x, ⟨some x, vx, [⟨some y, none⟩]⟩),
      (z, ⟨some z, vz, [⟨some x, none⟩]⟩),
      (y, ⟨some y, vy, [⟨some z, none⟩]⟩)] : Registry).map (fun p => p.1)
      = x :: [z, y] := by
    simp
  rw [hroots]
  refine findCycles3 _ x y z hxy hyz hxz ?_ ?_ ?_ 7 [z, y] ?_
  · simp [adjOf]
  · simp [adjOf, hxy, hyz, hxz, hxy.symm, hyz.symm, hxz.symm]
  · simp [adjOf, hxy, hyz, hxz, hxy.symm, hyz.symm, hxz.symm]
  · intro r hr
    rcases List.mem_cons.mp hr with rfl | hr'
    · exact Or.inr (Or.inr rfl)
    · rcases List.mem_singleton.mp hr' with rfl
      exact Or.inr (Or.inl rfl)

lemma perm_pair {α : Type} (l : List α) (x y : α) (h : l.Perm [x, y]) :
    l = [x, y] ∨ l = [y, x] := by
  have hlen := h.length_eq
  match l, hlen with
  | [p, q], _ =>
    have hp : p ∈ [x, y] := h.mem_iff.mp (List.mem_cons_self p [q])
    rcases List.mem_cons.mp hp with rfl | hp'
    · have hq : [q].Perm [y] := h.cons_inv
      rw [List.perm_singleton.mp hq]
      exact Or.inl rfl
    · rcases List.mem_singleton.mp hp' with rfl
      have h2 : (p :: [q]).Perm (p :: [x]) := h.trans (List.Perm.swap p x [])
      have hq : [q].Perm [x] := h2.cons_inv
      rw [List.perm_singleton.mp hq]
      exact Or.inr rfl

lemma perm_triple {α : Type} (l : List α) (x y z : α) (h : l.Perm [x, y, z]) :
    l = [x, y, z] ∨ l = [x, z, y] ∨ l = [y, x, z] ∨ l = [y, z, x]
      ∨ l = [z, x, y] ∨ l = [z, y, x] := by
  have hlen := h.length_eq
  match l, hlen with
  | [p, q, r], _ =>
    have hp : p ∈ [x, y, z] := h.mem_iff.mp (List.mem_cons_self p [q, r])
    rcases List.mem_cons.mp hp with rfl | hp'
    · have htail : [q, r].Perm [y, z] := h.cons_inv
      rcases perm_pair [q, r] y z htail with he | he <;>
        simp only [List.cons.injEq, and_true] at he <;>
          obtain ⟨rfl, rfl⟩ := he
      · exact Or.inl rfl
      · exact Or.inr (Or.inl rfl)
    · rcases List.mem_cons.mp hp' with rfl | hp''
      · have h2 : ([p, q, r] : List α).Perm [p, x, z] :=
          h.trans (List.Perm.swap p x [z])
        have htail : [q, r].Perm [x, z] := h2.cons_inv
        rcases perm_pair [q, r] x z htail with he | he <;>
          simp only [List.cons.injEq, and_true] at he <;>
            obtain ⟨rfl, rfl⟩ := he
        · exact Or.inr (Or.inr (Or.inl rfl))
        · exact Or.inr (Or.inr (Or.inr (Or.inl rfl)))
      · rcases List.mem_singleton.mp hp'' with rfl
        have s1 : ([y, p] : List α).Perm [p, y] := List.Perm.swap p y []
        have s2 : ([x, y, p] : List α).Perm [x, p, y] := s1.cons x
        have s3 : ([x, p, y] : List α).Perm [p, x, y] := List.Perm.swap p x [y]
        have h2 : ([p, q, r] : List α).Perm [p, x, y] := h.trans (s2.trans s3)
        have htail : [q, r].Perm [x, y] := h2.cons_inv
        rcases perm_pair [q, r] x y htail with he | he <;>
          simp only [List.cons.injEq, and_true] at he <;>
            obtain ⟨rfl, rfl⟩ := he
        · exact Or.inr (Or.inr (Or.inr (Or.inr (Or.inl rfl))))
        · exact Or.inr (Or.inr (Or.inr (Or.inr (Or.inr rfl))))

/-- C3: for any registry consisting of three manifests A, B, C (in any
order) where A declares a dependency on B, B on C and C on A, each with no
version constraint, `FindCycles` returns a cycle equal to `[A, B, C, A]` up
to rotation (the DFS records the cycle as the path suffix from the first
occurrence of the on-stack neighbor with that neighbor appended again). -/
theorem spec_C3 (a b c : Str) (va vb vc : Option Str)
    (hab : a ≠ b) (hbc : b ≠ c) (hac : a ≠ c)
    (ha : a ≠ []) (hb : b ≠ []) (hc : c ≠ [])
    (reg : Registry)
    (hreg : reg.Perm
      [(a, ⟨some a, va, [⟨some b, none⟩]⟩),
       (b, ⟨some b, vb, [⟨some c, none⟩]⟩),
       (c, ⟨some c, vc, [⟨some a, none⟩]⟩)]) :
    ∃ cyc ∈ detect_circular_dependencies reg,
      cyc = [a, b, c, a] ∨ cyc = [b, c, a, b] ∨ cyc = [c, a, b, c] := by
  rcases perm_triple reg _ _ _ hreg with h | h | h | h | h | h <;> subst h
  · rw [detect3_L1 a b c va vb vc hab hbc hac ha hb hc]
    exact ⟨[a, b, c, a], List.mem_singleton.mpr rfl, Or.inl rfl⟩
  · rw [detect3_L2 a b c va vb vc hab hbc hac ha hb hc]
    exact ⟨[a, b, c, a], List.mem_singleton.mpr rfl, Or.inl rfl⟩
  · rw [detect3_L2 b c a vb vc va hbc (Ne.symm hac) (Ne.symm hab) hb hc ha]
    exact ⟨[b, c, a, b], List.mem_singleton.mpr rfl, Or.inr (Or.inl rfl)⟩
  · rw [detect3_L1 b c a vb vc va hbc (Ne.symm hac) (Ne.symm hab) hb hc ha]
    exact ⟨[b, c, a, b], List.mem_singleton.mpr rfl, Or.inr (Or.inl rfl)⟩
  · rw [detect3_L1 c a b vc va vb (Ne.symm hac) hab (Ne.symm hbc) hc ha hb]
    exact ⟨[c, a, b, c], List.mem_singleton.mpr rfl, Or.inr (Or.inr rfl)⟩
  · rw [detect3_L2 c a b vc va vb (Ne.symm hac) hab (Ne.symm hbc) hc ha hb]
    exact ⟨[c, a, b, c], List.mem_singleton.mpr rfl, Or.inr (Or.inr rfl)⟩

/-- witness for C3 at a concrete registry -/
theorem spec_C3_witness :
    (("A".data : Str) ≠ "B".data)
    ∧ ∃ cyc ∈ detect_circular_dependencies
        [("A".data, ⟨some "A".data, none, [⟨some "B".data, none⟩]⟩),
         ("B".data, ⟨some "B".data, none, [⟨some "C".data, none⟩]⟩),
         ("C".data, ⟨some "C".data, none, [⟨some "A".data, none⟩]⟩)],
      cyc = ["A".data, "B".data, "C".data, "A".data]
        ∨ cyc = ["B".data, "C".data, "A".data, "B".data]
        ∨ cyc = ["C".data, "A".data, "B".data, "C".data] :=
  ⟨by decide,
    spec_C3 "A".data "B".data "C".data none none none (by decide) (by decide)
      (by decide) (by decide) (by decide) (by decide) _ (List.Perm.refl _)⟩

end PotionsShelf
